import Mathlib

/-!
Verification of the graph-construction logic of
`plugins/catalog/src/components/SystemDiagramCard/SystemDiagramCard.tsx`.

Strings are modelled as `List Char`.  JavaScript's
`String.prototype.replace` with a string pattern replaces only the first
occurrence, so we embed it as `replaceFirst`.  `toLocaleLowerCase('en-US')`
is modelled by `Char.toLower` mapped over the characters; the two agree on
the ASCII alphabet of valid catalog entity references.
-/

namespace SystemDiagram

/-- Embeds JavaScript `s.replace(pat, repl)` with a string `pat`: the first
occurrence of `pat` in `s` is replaced by `repl`; if `pat` does not occur,
`s` is returned unchanged. -/
def replaceFirst (pat repl : List Char) : List Char → List Char
  | [] => if pat.isPrefixOf ([] : List Char) then repl else []
  | c :: rest =>
    if pat.isPrefixOf (c :: rest) then repl ++ (c :: rest).drop pat.length
    else c :: replaceFirst pat repl rest

/-- Modelled from the spec: the well-known default namespace value that an
absent namespace defaults to (spec section 3, "namespace (optional, defaults
to a well-known value)"); the source's `replace(':default/', ':')` fixes the
value as `default`. -/
def ENTITY_DEFAULT_NAMESPACE : List Char := "default".data

/-- An entity reference: `kind`, optional namespace, `name`
(spec section 3, "EntityRef"). -/
structure EntityRef where
  kind : List Char
  ns : Option (List Char)
  name : List Char
deriving DecidableEq, Repr

/-- Modelled from the spec: `serializeEntityRef` from
`@backstage/catalog-model` (not under `src/`); per spec section 4.1 it
produces the string `kind:namespace/name`, an absent namespace defaulting to
the well-known default namespace. -/
def serializeEntityRef (r : EntityRef) : List Char :=
  r.kind ++ ':' :: (r.ns.getD ENTITY_DEFAULT_NAMESPACE) ++ '/' :: r.name

/-- Embeds `toLocaleLowerCase('en-US')` on the ASCII alphabet of valid
entity references. -/
def toLocaleLowerCase (s : List Char) : List Char :=
  s.map Char.toLower

/-- Embeds `simplifiedEntityName` (SystemDiagramCard.tsx lines 42-56):
serialize the ref, lowercase it, and elide the first `:default/` to `:`. -/
def simplifiedEntityName (r : EntityRef) : List Char :=
  replaceFirst ":default/".data ":".data (toLocaleLowerCase (serializeEntityRef r))

/-- A directed relation of an entity: a relation type tag and a target ref
(spec section 9, "an entity has a `relations` list of
`(kind: RelationKind, target: EntityRef)`"). -/
structure Relation where
  rtype : List Char
  target : EntityRef
deriving DecidableEq, Repr

/-- A catalog entity: its own ref components plus its outbound relations
(spec section 3 and section 9). -/
structure Entity where
  kind : List Char
  ns : Option (List Char)
  name : List Char
  relations : List Relation
deriving DecidableEq, Repr

/-- The entity's own reference. -/
def Entity.ref (e : Entity) : EntityRef :=
  ⟨e.kind, e.ns, e.name⟩

/-- Modelled from the spec: the `RELATION_PART_OF` relation-type tag from
`@backstage/catalog-model` (not under `src/`). -/
def RELATION_PART_OF : List Char := "partOf".data

/-- Modelled from the spec: the `RELATION_PROVIDES_API` relation-type tag
from `@backstage/catalog-model` (not under `src/`). -/
def RELATION_PROVIDES_API : List Char := "providesApi".data

/-- Modelled from the spec: the `RELATION_DEPENDS_ON` relation-type tag from
`@backstage/catalog-model` (not under `src/`). -/
def RELATION_DEPENDS_ON : List Char := "dependsOn".data

/-- Modelled from the spec: `getEntityRelations` from
`@backstage/plugin-catalog-react` (not under `src/`); per spec section 4.1
it selects the entity's outbound relations with the given relation type,
optionally restricted to targets of a given kind (kind comparison is on the
lowercased kind, matching the case-insensitive treatment of refs). -/
def getEntityRelations (e : Entity) (relationType : List Char)
    (kindFilter : Option (List Char)) : List EntityRef :=
  let entityNames := (e.relations.filter (fun r => r.rtype == relationType)).map
    (fun r => r.target)
  match kindFilter with
  | none => entityNames
  | some k => entityNames.filter
      (fun t => toLocaleLowerCase t.kind == toLocaleLowerCase k)

/-- A diagram node (spec section 3): `{ id: DisplayId }`. -/
structure Node where
  id : List Char
deriving DecidableEq, Repr

/-- A diagram edge (spec section 3):
`{ from: DisplayId, to: DisplayId, label: RelationLabel }`. -/
structure Edge where
  «from» : List Char
  «to» : List Char
  label : List Char
deriving DecidableEq, Repr

/-- Embeds the per-item body of the loop of SystemDiagramCard.tsx lines
112-146: the "part of", "provides API" and "depends on" edges pushed for one
`catalogItem`, in that order. -/
def catalogItemEdges (catalogItem : Entity) : List Edge :=
  (getEntityRelations catalogItem RELATION_PART_OF none).map
    (fun foundRelation =>
      ⟨simplifiedEntityName catalogItem.ref, simplifiedEntityName foundRelation,
        "part of".data⟩)
  ++ (getEntityRelations catalogItem RELATION_PROVIDES_API none).map
    (fun foundRelation =>
      ⟨simplifiedEntityName catalogItem.ref, simplifiedEntityName foundRelation,
        "provides API".data⟩)
  ++ (getEntityRelations catalogItem RELATION_DEPENDS_ON none).map
    (fun foundRelation =>
      ⟨simplifiedEntityName catalogItem.ref, simplifiedEntityName foundRelation,
        "depends on".data⟩)

/-- Embeds one iteration of the loop of SystemDiagramCard.tsx lines 103-147:
push the catalog item's node, then its edges. -/
def buildGraphStep (acc : List Node × List Edge) (catalogItem : Entity) :
    List Node × List Edge :=
  (acc.1 ++ [⟨simplifiedEntityName catalogItem.ref⟩],
   acc.2 ++ catalogItemEdges catalogItem)

/-- Embeds the graph construction of SystemDiagramCard.tsx lines 80-148:
push the root's node, then a node and a root-to-domain "part of" edge per
domain-kind "part of" relation of the root, then iterate over the related
entities in order.  Returns the final `(systemNodes, systemEdges)`. -/
def buildGraph (root : Entity) (related : List Entity) :
    List Node × List Edge :=
  let currentSystemNode := simplifiedEntityName root.ref
  let catalogItemDomain := getEntityRelations root RELATION_PART_OF (some "domain".data)
  related.foldl buildGraphStep
    (⟨currentSystemNode⟩ :: catalogItemDomain.map
        (fun foundDomain => ⟨simplifiedEntityName foundDomain⟩),
     catalogItemDomain.map
        (fun foundDomain =>
          ⟨currentSystemNode, simplifiedEntityName foundDomain, "part of".data⟩))

/-- The root system of the spec's worked example, `system:default/payments`,
here with no relations of its own. -/
def payments : Entity :=
  ⟨"system".data, some "default".data, "payments".data, []⟩

/-- The related component of the spec's worked example,
`component:default/checkout`, with one "depends on" relation targeting
`component:default/cart`. -/
def checkout : Entity :=
  ⟨"component".data, some "default".data, "checkout".data,
    [⟨RELATION_DEPENDS_ON, ⟨"component".data, some "default".data, "cart".data⟩⟩]⟩

/-- A copy of the payments system that carries a "part of" relation to the
domain `domain:default/things`. -/
def paymentsInDomain : Entity :=
  ⟨"system".data, some "default".data, "payments".data,
    [⟨RELATION_PART_OF, ⟨"domain".data, some "default".data, "things".data⟩⟩]⟩

/-- The domain entity `domain:default/things`, with no relations. -/
def thingsDomain : Entity :=
  ⟨"domain".data, some "default".data, "things".data, []⟩

example : simplifiedEntityName ⟨"system".data, some "default".data, "payments".data⟩
    = "system:payments".data := by decide

example : simplifiedEntityName ⟨"Component".data, some "Team-A".data, "My-Svc".data⟩
    = "component:team-a/my-svc".data := by decide

/-- Unfolding the fold over the related entities: it appends one node per
entity and that entity's edges, in order. -/
theorem foldl_buildGraphStep (related : List Entity) :
    ∀ (ns : List Node) (es : List Edge),
      related.foldl buildGraphStep (ns, es) =
        (ns ++ related.map (fun e => ⟨simplifiedEntityName e.ref⟩),
         es ++ related.flatMap catalogItemEdges) := by
  induction related with
  | nil => intro ns es; simp
  | cons e t ih => intro ns es; simp [buildGraphStep, ih]

/-- Closed form of `buildGraph`: the root node, then the root's domain
nodes, then the related entities' nodes; the root-to-domain edges, then the
related entities' edges. -/
theorem buildGraph_eq (root : Entity) (related : List Entity) :
    buildGraph root related =
      (⟨simplifiedEntityName root.ref⟩ ::
         (getEntityRelations root RELATION_PART_OF (some "domain".data)).map
           (fun foundDomain => ⟨simplifiedEntityName foundDomain⟩)
         ++ related.map (fun e => ⟨simplifiedEntityName e.ref⟩),
       (getEntityRelations root RELATION_PART_OF (some "domain".data)).map
           (fun foundDomain =>
             ⟨simplifiedEntityName root.ref, simplifiedEntityName foundDomain,
               "part of".data⟩)
         ++ related.flatMap catalogItemEdges) := by
  simp [buildGraph, foldl_buildGraphStep]

/-- Every edge pushed for a catalog item has that item's id as its
`from` endpoint. -/
theorem catalogItemEdges_from (catalogItem : Entity) (e : Edge)
    (he : e ∈ catalogItemEdges catalogItem) :
    e.«from» = simplifiedEntityName catalogItem.ref := by
  simp only [catalogItemEdges, List.mem_append, List.mem_map] at he
  rcases he with (⟨r, _, rfl⟩ | ⟨r, _, rfl⟩) | ⟨r, _, rfl⟩ <;> rfl

/-- Every edge pushed for a catalog item carries one of the three fixed
labels. -/
theorem catalogItemEdges_label (catalogItem : Entity) (e : Edge)
    (he : e ∈ catalogItemEdges catalogItem) :
    e.label = "part of".data ∨ e.label = "provides API".data ∨
      e.label = "depends on".data := by
  simp only [catalogItemEdges, List.mem_append, List.mem_map] at he
  rcases he with (⟨r, _, rfl⟩ | ⟨r, _, rfl⟩) | ⟨r, _, rfl⟩
  · exact Or.inl rfl
  · exact Or.inr (Or.inl rfl)
  · exact Or.inr (Or.inr rfl)

/-- Claim C2, counterexample: with the root `system:default/payments`
carrying a "part of" relation to `domain:default/things` and that same
domain also present in the related-entity list, the returned node list
contains two entries with the id `domain:things` - the builder does not
collapse duplicate ids. -/
theorem c2_counterexample :
    ((buildGraph paymentsInDomain [thingsDomain]).1.map Node.id).count
      "domain:things".data = 2 := by decide

/-- Claim C2, amended: the builder performs no deduplication at all - the
node list has exactly one entry per push (one for the root, one per domain
relation of the root, one per related entity), so a related entity whose
normalized id is already present does add a second entry with the same
id. -/
theorem c2_theorem (root : Entity) (related : List Entity) :
    (buildGraph root related).1.length =
      1 + (getEntityRelations root RELATION_PART_OF (some "domain".data)).length
        + related.length := by
  simp [buildGraph_eq]
  omega

/-- Claim C4: `buildGraph` is deterministic and pure - it is embedded as a
total function, so identical inputs yield identical node and edge
sequences, and the construction performs no I/O. -/
theorem c4_theorem (root root' : Entity) (related related' : List Entity)
    (h1 : root = root') (h2 : related = related') :
    buildGraph root related = buildGraph root' related' := by
  rw [h1, h2]

/-- Witness for C4 at a concrete input. -/
theorem c4_witness :
    payments = payments ∧ ([checkout] : List Entity) = [checkout] ∧
      buildGraph payments [checkout] = buildGraph payments [checkout] :=
  ⟨rfl, rfl, c4_theorem payments payments [checkout] [checkout] rfl rfl⟩

/-- Claim C6: the root entity's normalized id is the first node of the
returned node list, and in particular is present in it. -/
theorem c6_theorem (root : Entity) (related : List Entity) :
    (buildGraph root related).1.head? = some ⟨simplifiedEntityName root.ref⟩ ∧
      (⟨simplifiedEntityName root.ref⟩ : Node) ∈ (buildGraph root related).1 := by
  rw [buildGraph_eq]
  exact ⟨rfl, List.mem_cons_self _ _⟩

/-- Claim C7: every edge in the output carries one of the three fixed
labels "part of", "provides API", "depends on". -/
theorem c7_theorem (root : Entity) (related : List Entity) (e : Edge)
    (he : e ∈ (buildGraph root related).2) :
    e.label = "part of".data ∨ e.label = "provides API".data ∨
      e.label = "depends on".data := by
  rw [buildGraph_eq] at he
  simp only [List.mem_append, List.mem_map, List.mem_flatMap] at he
  rcases he with ⟨r, _, rfl⟩ | ⟨a, _, ha⟩
  · exact Or.inl rfl
  · exact catalogItemEdges_label a e ha

/-- Witness for C7 at a concrete input: the single edge of the worked
example carries the label "depends on". -/
theorem c7_witness :
    (⟨"component:checkout".data, "component:cart".data, "depends on".data⟩ : Edge)
        ∈ (buildGraph payments [checkout]).2 ∧
      (("depends on".data = "part of".data ∨
          "depends on".data = "provides API".data ∨
          "depends on".data = "depends on".data)) :=
  ⟨by decide, by
    have h := c7_theorem payments [checkout]
      ⟨"component:checkout".data, "component:cart".data, "depends on".data⟩
      (by decide)
    exact h⟩

/-- Claim C9: the output order is insertion order - the node list is the
root first, then the root's domain targets in relation order, then the
related entities in input order; the edge list is the root-to-domain
"part of" edges first, then each related entity's edges in input order,
each entity's edges grouped part-of, then provides-API, then depends-on
(the grouping inside `catalogItemEdges`). -/
theorem c9_theorem (root : Entity) (related : List Entity) :
    buildGraph root related =
      (⟨simplifiedEntityName root.ref⟩ ::
         (getEntityRelations root RELATION_PART_OF (some "domain".data)).map
           (fun foundDomain => ⟨simplifiedEntityName foundDomain⟩)
         ++ related.map (fun e => ⟨simplifiedEntityName e.ref⟩),
       (getEntityRelations root RELATION_PART_OF (some "domain".data)).map
           (fun foundDomain =>
             ⟨simplifiedEntityName root.ref, simplifiedEntityName foundDomain,
               "part of".data⟩)
         ++ related.flatMap catalogItemEdges) :=
  buildGraph_eq root related

/-- Claim C10: every edge's `from` endpoint is the id of some node of the
returned node list - it is the root's id for the root-to-domain edges and
the related entity's own id (always pushed as a node) otherwise. -/
theorem c10_theorem (root : Entity) (related : List Entity) (e : Edge)
    (he : e ∈ (buildGraph root related).2) :
    e.«from» ∈ (buildGraph root related).1.map Node.id := by
  rw [buildGraph_eq] at he ⊢
  simp only [List.mem_append, List.mem_map, List.mem_flatMap] at he
  rcases he with ⟨r, _, rfl⟩ | ⟨a, ha, hea⟩
  · exact List.mem_map.mpr ⟨_, List.mem_cons_self _ _, rfl⟩
  · exact List.mem_map.mpr ⟨⟨simplifiedEntityName a.ref⟩,
      List.mem_cons_of_mem _
        (List.mem_append.mpr (Or.inr (List.mem_map.mpr ⟨a, ha, rfl⟩))),
      (catalogItemEdges_from a e hea).symm⟩

/-- Witness for C10 at a concrete input: the `from` endpoint of the worked
example's single edge is the id of the checkout node. -/
theorem c10_witness :
    (⟨"component:checkout".data, "component:cart".data, "depends on".data⟩ : Edge)
        ∈ (buildGraph payments [checkout]).2 ∧
      "component:checkout".data ∈ (buildGraph payments [checkout]).1.map Node.id :=
  ⟨by decide,
    c10_theorem payments [checkout]
      ⟨"component:checkout".data, "component:cart".data, "depends on".data⟩
      (by decide)⟩

/-- Claim C1, counterexample: on the spec's worked example the node list is
not the claimed three-element list - the relation target `component:cart`
never gets a node of its own. -/
theorem c1_counterexample :
    (buildGraph payments [checkout]).1 ≠
      [⟨"system:payments".data⟩, ⟨"component:checkout".data⟩,
        ⟨"component:cart".data⟩] := by decide

/-- Claim C1, amended: on the worked example `buildGraph` returns the node
list `["system:payments", "component:checkout"]` in that order and the
single edge from `component:checkout` to `component:cart` labeled
"depends on" - a relation target absent from the related-entity list gets
an edge but no node of its own (only root domain relation targets get
nodes without being listed). -/
theorem c1_theorem :
    buildGraph payments [checkout] =
      ([⟨"system:payments".data⟩, ⟨"component:checkout".data⟩],
       [⟨"component:checkout".data, "component:cart".data,
         "depends on".data⟩]) := by decide

/-- Claim C5: every "part of" relation of the root with a domain-kind
target contributes a node with the target's normalized id and a
root-to-target edge labeled "part of", regardless of the related-entity
list (no existence check). -/
theorem c5_theorem (root : Entity) (related : List Entity) (rel : Relation)
    (hmem : rel ∈ root.relations) (htype : rel.rtype = RELATION_PART_OF)
    (hkind : toLocaleLowerCase rel.target.kind = "domain".data) :
    (⟨simplifiedEntityName rel.target⟩ : Node) ∈ (buildGraph root related).1 ∧
      (⟨simplifiedEntityName root.ref, simplifiedEntityName rel.target,
        "part of".data⟩ : Edge) ∈ (buildGraph root related).2 := by
  have hlow : toLocaleLowerCase "domain".data = "domain".data := by decide
  have hd : rel.target ∈ getEntityRelations root RELATION_PART_OF (some "domain".data) := by
    simp only [getEntityRelations]
    refine List.mem_filter.mpr ⟨List.mem_map.mpr ⟨rel, List.mem_filter.mpr ⟨hmem, ?_⟩, rfl⟩, ?_⟩
    · simp [htype]
    · simp [hlow, hkind]
  rw [buildGraph_eq]
  exact ⟨List.mem_cons_of_mem _
      (List.mem_append.mpr (Or.inl (List.mem_map.mpr ⟨rel.target, hd, rfl⟩))),
    List.mem_append.mpr (Or.inl (List.mem_map.mpr ⟨rel.target, hd, rfl⟩))⟩

/-- Witness for C5 at a concrete input: the root's domain relation to
`domain:default/things` yields its node and edge even with an empty
related-entity list. -/
theorem c5_witness :
    (⟨RELATION_PART_OF, ⟨"domain".data, some "default".data, "things".data⟩⟩ : Relation)
        ∈ paymentsInDomain.relations ∧
      ((⟨simplifiedEntityName ⟨"domain".data, some "default".data, "things".data⟩⟩ : Node)
          ∈ (buildGraph paymentsInDomain []).1 ∧
        (⟨simplifiedEntityName paymentsInDomain.ref,
          simplifiedEntityName ⟨"domain".data, some "default".data, "things".data⟩,
          "part of".data⟩ : Edge) ∈ (buildGraph paymentsInDomain []).2) :=
  ⟨by decide,
    c5_theorem paymentsInDomain []
      ⟨RELATION_PART_OF, ⟨"domain".data, some "default".data, "things".data⟩⟩
      (by decide) rfl (by decide)⟩

/-- Claim C8, counterexample: the root `payments` has no relations at all,
yet when the related-entity list contains an entity whose normalized id
collides with the root's (here a catalog copy of the same system carrying a
"part of" relation to `domain:default/things`), the output does contain an
edge labeled "part of" whose `from` is the root's id and whose `to` is a
domain entity's normalized id. -/
theorem c8_counterexample :
    payments.relations = [] ∧
      (⟨"system:payments".data, "domain:things".data, "part of".data⟩ : Edge)
        ∈ (buildGraph payments [paymentsInDomain]).2 ∧
      "system:payments".data = simplifiedEntityName payments.ref ∧
      "domain:things".data =
        simplifiedEntityName ⟨"domain".data, some "default".data, "things".data⟩ := by
  decide

/-- Claim C8, amended: if the root has no "part of" relation with a
domain-kind target and no related entity's normalized id equals the root's
id, then no edge labeled "part of" has the root's id as its `from`
endpoint (in particular none toward a domain node's id). -/
theorem c8_theorem (root : Entity) (related : List Entity)
    (hroot : ∀ rel ∈ root.relations,
      ¬(rel.rtype = RELATION_PART_OF ∧
        toLocaleLowerCase rel.target.kind = "domain".data))
    (hids : ∀ e ∈ related,
      simplifiedEntityName e.ref ≠ simplifiedEntityName root.ref) :
    ∀ ed ∈ (buildGraph root related).2,
      ¬(ed.label = "part of".data ∧
        ed.«from» = simplifiedEntityName root.ref) := by
  have hlow : toLocaleLowerCase "domain".data = "domain".data := by decide
  have hdom : getEntityRelations root RELATION_PART_OF (some "domain".data) = [] := by
    simp only [getEntityRelations]
    rw [List.filter_eq_nil_iff]
    intro t ht
    simp only [List.mem_map, List.mem_filter, beq_iff_eq] at ht
    obtain ⟨rel, ⟨hmem, htype⟩, rfl⟩ := ht
    simp only [hlow, beq_iff_eq]
    exact fun hk => hroot rel hmem ⟨htype, hk⟩
  intro ed hed
  rw [buildGraph_eq, hdom] at hed
  simp only [List.map_nil, List.nil_append, List.mem_flatMap] at hed
  obtain ⟨a, ha, hea⟩ := hed
  rintro ⟨-, hfrom⟩
  exact hids a ha ((catalogItemEdges_from a ed hea).symm.trans hfrom)

/-- Witness for C8 at a concrete input: the worked example's root has no
domain relation, the only related entity's id differs from the root's, and
indeed no "part of" edge leaves the root's id. -/
theorem c8_witness :
    (∀ rel ∈ payments.relations,
      ¬(rel.rtype = RELATION_PART_OF ∧
        toLocaleLowerCase rel.target.kind = "domain".data)) ∧
      (∀ e ∈ ([checkout] : List Entity),
        simplifiedEntityName e.ref ≠ simplifiedEntityName payments.ref) ∧
      (∀ ed ∈ (buildGraph payments [checkout]).2,
        ¬(ed.label = "part of".data ∧
          ed.«from» = simplifiedEntityName payments.ref)) :=
  ⟨by decide, by decide, c8_theorem payments [checkout] (by decide) (by decide)⟩

/-- Packing a valid code point and unpacking it is the identity. -/
theorem char_toNat_ofNat (n : Nat) (h : n.isValidChar) :
    (Char.ofNat n).toNat = n := by
  simp [Char.ofNat, h, Char.ofNatAux, Char.toNat, UInt32.toNat]

/-- Lowercasing can only produce a character below code point 65 (such as
':' or '/') from that character itself. -/
theorem toLower_eq_of_small (t c : Char) (ht : t.toNat < 65)
    (h : Char.toLower c = t) : c = t := by
  simp only [Char.toLower] at h
  split at h
  · exfalso
    rename_i hc
    have hv : (c.toNat + 32).isValidChar := Or.inl (by omega)
    have hcongr := congrArg Char.toNat h
    rw [char_toNat_ofNat _ hv] at hcongr
    omega
  · exact h

/-- A character below code point 65 absent from a string is also absent
from its lowercasing. -/
theorem notMem_toLocaleLowerCase (t : Char) (ht : t.toNat < 65)
    (s : List Char) (hs : t ∉ s) : t ∉ toLocaleLowerCase s := by
  intro hmem
  obtain ⟨c, hc, heq⟩ := List.mem_map.mp hmem
  have hct := toLower_eq_of_small t c ht heq
  exact hs (hct ▸ hc)

/-- A list is a prefix of itself followed by anything. -/
theorem isPrefixOf_append_self (l t : List Char) :
    l.isPrefixOf (l ++ t) = true := by
  induction l with
  | nil => simp [List.isPrefixOf]
  | cons a l ih => simp [List.isPrefixOf, ih]

/-- When the pattern is a prefix of the string, `replaceFirst` replaces it
at position zero. -/
theorem replaceFirst_of_prefix_true (pat repl s : List Char)
    (h : pat.isPrefixOf s = true) :
    replaceFirst pat repl s = repl ++ s.drop pat.length := by
  cases s with
  | nil => simp [replaceFirst, h]
  | cons c rest => simp [replaceFirst, h]

/-- When the pattern does not match at the head, `replaceFirst` keeps the
head and continues. -/
theorem replaceFirst_cons_of_prefix_false (pat repl : List Char) (c : Char)
    (rest : List Char) (h : pat.isPrefixOf (c :: rest) = false) :
    replaceFirst pat repl (c :: rest) = c :: replaceFirst pat repl rest := by
  simp [replaceFirst, h]

/-- A pattern starting with ':' skips over any block of characters free of
':'. -/
theorem replaceFirst_append_of_colon_notMem (pt repl a b : List Char)
    (ha : ':' ∉ a) :
    replaceFirst (':' :: pt) repl (a ++ b) =
      a ++ replaceFirst (':' :: pt) repl b := by
  induction a with
  | nil => simp
  | cons c rest ih =>
    simp only [List.mem_cons, not_or] at ha
    obtain ⟨hc, hrest⟩ := ha
    have hbeq : ((':' : Char) == c) = false := by
      simp only [beq_eq_false_iff_ne, ne_eq]
      exact hc
    have hpfx : (':' :: pt).isPrefixOf (c :: (rest ++ b)) = false := by
      simp [List.isPrefixOf, hbeq]
    rw [List.cons_append, replaceFirst_cons_of_prefix_false _ _ _ _ hpfx,
      ih hrest]
    simp

/-- A pattern starting with ':' leaves a string free of ':' unchanged. -/
theorem replaceFirst_of_colon_notMem (pt repl s : List Char)
    (hs : ':' ∉ s) : replaceFirst (':' :: pt) repl s = s := by
  induction s with
  | nil => rfl
  | cons c rest ih =>
    simp only [List.mem_cons, not_or] at hs
    obtain ⟨hc, hrest⟩ := hs
    have hbeq : ((':' : Char) == c) = false := by
      simp only [beq_eq_false_iff_ne, ne_eq]
      exact hc
    have hpfx : (':' :: pt).isPrefixOf (c :: rest) = false := by
      simp [List.isPrefixOf, hbeq]
    rw [replaceFirst_cons_of_prefix_false _ _ _ _ hpfx, ih hrest]

/-- If `d ++ "/"` is a prefix of `ns ++ "/" ++ tail` and neither `d` nor
`ns` contains '/', then `ns` is exactly `d`. -/
theorem eq_of_isPrefixOf_slash :
    ∀ (d ns tail : List Char), '/' ∉ d → '/' ∉ ns →
      (d ++ ['/']).isPrefixOf (ns ++ '/' :: tail) = true → ns = d := by
  intro d
  induction d with
  | nil =>
    intro ns tail _ hns h
    cases ns with
    | nil => rfl
    | cons c rest =>
      exfalso
      simp only [List.mem_cons, not_or] at hns
      simp only [List.nil_append, List.cons_append, List.isPrefixOf,
        Bool.and_eq_true, beq_iff_eq] at h
      exact hns.1 h.1
  | cons a d' ih =>
    intro ns tail hd hns h
    simp only [List.mem_cons, not_or] at hd
    cases ns with
    | nil =>
      exfalso
      simp only [List.nil_append, List.cons_append, List.isPrefixOf,
        Bool.and_eq_true, beq_iff_eq] at h
      exact hd.1 h.1.symm
    | cons c rest =>
      simp only [List.mem_cons, not_or] at hns
      simp only [List.cons_append, List.isPrefixOf, Bool.and_eq_true,
        beq_iff_eq] at h
      obtain ⟨hac, hpfx⟩ := h
      have := ih rest tail hd.2 hns.2 hpfx
      rw [hac, this]

/-- Claim C3: on refs whose components are free of ':' and '/' (malformed
refs are out of scope per the spec), `simplifiedEntityName` returns the
lowercase `kind:namespace/name`, except that a namespace equal to the
default namespace (equality taken on the normalized, lowercased form, the
spec's notion of ref equality) is elided together with its trailing '/',
yielding `kind:name`. -/
theorem c3_theorem (k n : List Char) (ns? : Option (List Char))
    (hk : ':' ∉ k)
    (hns : ':' ∉ ns?.getD ENTITY_DEFAULT_NAMESPACE)
    (hns2 : '/' ∉ ns?.getD ENTITY_DEFAULT_NAMESPACE)
    (hn : ':' ∉ n) :
    simplifiedEntityName ⟨k, ns?, n⟩ =
      if toLocaleLowerCase (ns?.getD ENTITY_DEFAULT_NAMESPACE) = "default".data
      then toLocaleLowerCase k ++ ':' :: toLocaleLowerCase n
      else toLocaleLowerCase k ++ ':' ::
        toLocaleLowerCase (ns?.getD ENTITY_DEFAULT_NAMESPACE) ++
        '/' :: toLocaleLowerCase n := by
  have hser : serializeEntityRef ⟨k, ns?, n⟩ =
      k ++ ':' :: (ns?.getD ENTITY_DEFAULT_NAMESPACE) ++ '/' :: n := rfl
  have hcolon : Char.toLower ':' = ':' := by decide
  have hslash : Char.toLower '/' = '/' := by decide
  have hmap : toLocaleLowerCase
      (k ++ ':' :: (ns?.getD ENTITY_DEFAULT_NAMESPACE) ++ '/' :: n) =
      toLocaleLowerCase k ++ ':' ::
        (toLocaleLowerCase (ns?.getD ENTITY_DEFAULT_NAMESPACE) ++
          '/' :: toLocaleLowerCase n) := by
    simp [toLocaleLowerCase, hcolon, hslash]
  have hk' : ':' ∉ toLocaleLowerCase k :=
    notMem_toLocaleLowerCase ':' (by decide) k hk
  have hns' : ':' ∉ toLocaleLowerCase (ns?.getD ENTITY_DEFAULT_NAMESPACE) :=
    notMem_toLocaleLowerCase ':' (by decide) _ hns
  have hn' : ':' ∉ toLocaleLowerCase n :=
    notMem_toLocaleLowerCase ':' (by decide) n hn
  have hns2' : '/' ∉ toLocaleLowerCase (ns?.getD ENTITY_DEFAULT_NAMESPACE) :=
    notMem_toLocaleLowerCase '/' (by decide) _ hns2
  have hpat : ":default/".data = ':' :: "default/".data := by decide
  unfold simplifiedEntityName
  rw [hser, hmap]
  by_cases hdef : toLocaleLowerCase (ns?.getD ENTITY_DEFAULT_NAMESPACE) =
      "default".data
  · rw [if_pos hdef, hdef, hpat, replaceFirst_append_of_colon_notMem _ _ _ _ hk']
    have hdf : "default/".data = "default".data ++ ['/'] := by decide
    have hsplit : (':' :: ("default".data ++ '/' :: toLocaleLowerCase n)) =
        (':' :: "default/".data) ++ toLocaleLowerCase n := by
      simp [hdf]
    rw [hsplit,
      replaceFirst_of_prefix_true _ _ _ (isPrefixOf_append_self _ _),
      List.drop_left]
    simp
  · rw [if_neg hdef, hpat, replaceFirst_append_of_colon_notMem _ _ _ _ hk']
    have hpfx : ((':' :: "default/".data).isPrefixOf
        (':' :: (toLocaleLowerCase (ns?.getD ENTITY_DEFAULT_NAMESPACE) ++
          '/' :: toLocaleLowerCase n))) = false := by
      simp only [List.isPrefixOf, beq_self_eq_true, Bool.true_and]
      cases htest : ("default/".data).isPrefixOf
          (toLocaleLowerCase (ns?.getD ENTITY_DEFAULT_NAMESPACE) ++
            '/' :: toLocaleLowerCase n) with
      | false => rfl
      | true =>
        exfalso
        have hdf : "default/".data = "default".data ++ ['/'] := by decide
        rw [hdf] at htest
        exact hdef
          (eq_of_isPrefixOf_slash "default".data _ _ (by decide) hns2' htest)
    rw [replaceFirst_cons_of_prefix_false _ _ _ _ hpfx]
    have hnocolon : ':' ∉
        toLocaleLowerCase (ns?.getD ENTITY_DEFAULT_NAMESPACE) ++
          '/' :: toLocaleLowerCase n := by
      simp only [List.mem_append, List.mem_cons, not_or]
      exact ⟨hns', by decide, hn'⟩
    rw [replaceFirst_of_colon_notMem _ _ _ hnocolon]
    simp

/-- Witness for C3 at a concrete input: a ref with the non-default
namespace `Team-A` keeps its (lowercased) namespace segment. -/
theorem c3_witness :
    (':' ∉ "Component".data) ∧
      (':' ∉ (some "Team-A".data).getD ENTITY_DEFAULT_NAMESPACE) ∧
      ('/' ∉ (some "Team-A".data).getD ENTITY_DEFAULT_NAMESPACE) ∧
      (':' ∉ "Svc".data) ∧
      simplifiedEntityName ⟨"Component".data, some "Team-A".data, "Svc".data⟩ =
        (if toLocaleLowerCase ((some "Team-A".data).getD ENTITY_DEFAULT_NAMESPACE) =
            "default".data
         then toLocaleLowerCase "Component".data ++ ':' ::
           toLocaleLowerCase "Svc".data
         else toLocaleLowerCase "Component".data ++ ':' ::
           toLocaleLowerCase ((some "Team-A".data).getD ENTITY_DEFAULT_NAMESPACE) ++
           '/' :: toLocaleLowerCase "Svc".data) :=
  ⟨by decide, by decide, by decide, by decide,
    c3_theorem "Component".data "Svc".data (some "Team-A".data)
      (by decide) (by decide) (by decide) (by decide)⟩

end SystemDiagram
